import Mathlib

/-!
Verification of the customer-segmentation pipeline.

Shallow embedding of `src/rfm.py` and `src/clustering.py`.  DataFrames are
lists of structures, timestamps are POSIX seconds (`Int`), monetary values
are exact rationals (`ℚ`).  The pandas / numpy / sklearn primitives the two
files call (`groupby`, `qcut`, `rank(method='first')`, `Series.quantile`,
`KMeans`) are modelled by their documented behaviour, noted at each
definition.
-/

deriving instance DecidableEq for Except

namespace Seg

/-- One cleaned transaction row, the input contract of `calculate_rfm`
(produced by `src/preprocessing.py`).  `invoiceDate` is a POSIX timestamp in
seconds (pandas `Timestamp`, second granularity in the retail CSV). -/
structure Transaction where
  invoiceNo : String
  customerID : Nat
  totalAmount : ℚ
  invoiceDate : Int
  deriving DecidableEq

/-- Seconds in `pd.Timedelta(days=1)`. -/
def oneDay : Int := 86400

/-- Model of `df['InvoiceDate'].max()` (0 is a dummy for the empty frame,
where pandas yields `NaT`; the value is then never used downstream). -/
def maxInvoiceDate (df : List Transaction) : Int :=
  ((df.map (·.invoiceDate)).max?).getD 0

/-- One row of the RFM table produced by `calculate_rfm`. -/
structure RFMRow where
  customerID : Nat
  Recency : Int
  Frequency : Nat
  Monetary : ℚ
  deriving DecidableEq

/-- Model of the keys of `df.groupby('CustomerID')`: the distinct customer
ids in ascending order (pandas groups with `sort=True` by default). -/
def sortedCustomers (df : List Transaction) : List Nat :=
  ((df.map (·.customerID)).dedup).insertionSort (· ≤ ·)

/-- Model of `calculate_rfm` (src/rfm.py).  The snapshot date is the global
maximum invoice date plus one day; per customer, Recency is the whole-day
(floor) difference between snapshot and that customer's latest purchase
(`Timedelta.days` floors), Frequency is `InvoiceNo.nunique()`, Monetary is
`TotalAmount.sum()`. -/
def rfmRowOf (df : List Transaction) (c : Nat) : RFMRow :=
  let snapshot_date := maxInvoiceDate df + oneDay
  let g := df.filter (fun t => t.customerID = c)
  { customerID := c
    Recency := (snapshot_date - maxInvoiceDate g).fdiv oneDay
    Frequency := ((g.map (·.invoiceNo)).toFinset).card
    Monetary := (g.map (·.totalAmount)).sum }

/-- Model of the `groupby('CustomerID').agg(...)` call of `calculate_rfm`:
one aggregated row per distinct customer, in ascending customer order. -/
def calculate_rfm (df : List Transaction) : List RFMRow :=
  (sortedCustomers df).map (rfmRowOf df)

/-- Ascending sort of the sample, as numpy sorts before interpolating
quantiles. -/
def sortQ (xs : List ℚ) : List ℚ := xs.insertionSort (· ≤ ·)

/-- Linear-interpolation quantile of an (ascending) sorted sample, the
default of `Series.quantile` / `numpy.percentile`: with `h = p * (n - 1)`,
`i = ⌊h⌋`, the result is `s[i] + (h - i) * (s[i+1] - s[i])`.  The `getD`
defaults are only reached when the interpolation weight is 0, where they are
multiplied away. -/
def quantileSorted (s : List ℚ) (p : ℚ) : ℚ :=
  let n := s.length
  let h : ℚ := p * ((n : ℚ) - 1)
  let i : ℕ := (⌊h⌋).toNat
  let g : ℚ := h - (i : ℚ)
  let lo := s.getD i 0
  let hi := s.getD (i + 1) 0
  lo + g * (hi - lo)

/-- Interval membership of `pd.cut` on six ascending edges: bin `j` is the
interval `(e_j, e_{j+1}]`, except that the lowest bin also contains its left
edge (`include_lowest=True`, which `qcut` always passes).  Values outside
all bins get no label (pandas produces `NaN`; unreachable for `qcut`, whose
outer edges are the sample min and max). -/
def binAssign (v e0 e1 e2 e3 e4 e5 : ℚ) : Option Nat :=
  if v < e0 then none
  else if v ≤ e1 then some 0
  else if v ≤ e2 then some 1
  else if v ≤ e3 then some 2
  else if v ≤ e4 then some 3
  else if v ≤ e5 then some 4
  else none

/-- Edge number `j` (of six, `j = 0..5`) used by `pd.qcut(xs, q=5)`: the
`j/5`-quantile of the sample. -/
def qedge (xs : List ℚ) (j : Nat) : ℚ := quantileSorted (sortQ xs) ((j : ℚ) / 5)

/-- Uniqueness of the six quantile edges.  As quantiles of one sample are
monotone in `p`, uniqueness is exactly this strict chain. -/
def qchain (xs : List ℚ) : Prop :=
  qedge xs 0 < qedge xs 1 ∧ qedge xs 1 < qedge xs 2 ∧ qedge xs 2 < qedge xs 3
    ∧ qedge xs 3 < qedge xs 4 ∧ qedge xs 4 < qedge xs 5

instance (xs : List ℚ) : Decidable (qchain xs) := by unfold qchain; infer_instance

/-- Bin of one sample value among the six quantile edges of its sample. -/
def assignOf (xs : List ℚ) (v : ℚ) : Option Nat :=
  binAssign v (qedge xs 0) (qedge xs 1) (qedge xs 2) (qedge xs 3) (qedge xs 4)
    (qedge xs 5)

/-- Model of `pd.qcut(xs, q=5)`: edges are the 0,20,40,60,80,100-percentiles
of the sample; pandas raises `ValueError: Bin edges must be unique` when the
edges contain duplicates. -/
def qcut5 (xs : List ℚ) : Except String (List Nat) :=
  if qchain xs then
    if (xs.map (assignOf xs)).all Option.isSome then
      .ok (xs.map fun v => (assignOf xs v).getD 0)
    else .error "value outside all bins"
  else .error "Bin edges must be unique"

/-- Positions ranked strictly before position `i` under ascending value
order with ties broken by position (the order of `rank(method='first')`). -/
def rankLess (xs : List ℚ) (i : Nat) : Finset Nat :=
  (Finset.range xs.length).filter fun k =>
    xs.getD k 0 < xs.getD i 0 ∨ (xs.getD k 0 = xs.getD i 0 ∧ k < i)

/-- Model of `Series.rank(method='first')`: ascending rank where ties are
broken by position in the series, so the ranks are exactly `1..n` in some
order. -/
def rankFirst (xs : List ℚ) : List ℚ :=
  (List.range xs.length).map fun i => (1 : ℚ) + ((rankLess xs i).card : ℚ)

/-- One row of the scored RFM table produced by `score_rfm`. -/
structure ScoredRow where
  customerID : Nat
  Recency : Int
  Frequency : Nat
  Monetary : ℚ
  R_Score : Nat
  F_Score : Nat
  M_Score : Nat
  RFM_Segment : String
  RFM_Score_Sum : Nat
  deriving DecidableEq

/-- Assembly of one scored row from the three bin indices (each in `0..4`).
Recency labels are `sorted(labels, reverse=True) = [5,4,3,2,1]`, so bin `b`
gets `5 - b`; Frequency and Monetary labels ascend, so bin `b` gets `b + 1`.
The segment string and the score sum are built exactly as in the source
(`astype(str)` concatenation, `sum(axis=1)` of the three integer labels). -/
def mkScored (r : RFMRow) (rb fb mb : Nat) : ScoredRow :=
  { customerID := r.customerID
    Recency := r.Recency
    Frequency := r.Frequency
    Monetary := r.Monetary
    R_Score := 5 - rb
    F_Score := fb + 1
    M_Score := mb + 1
    RFM_Segment := toString (5 - rb) ++ toString (fb + 1) ++ toString (mb + 1)
    RFM_Score_Sum := (5 - rb) + (fb + 1) + (mb + 1) }

/-- Row-wise combination of the RFM table with its three bin columns. -/
def zipScores : List RFMRow → List Nat → List Nat → List Nat → List ScoredRow
  | r :: rs, a :: as', b :: bs', c :: cs' => mkScored r a b c :: zipScores rs as' bs' cs'
  | _, _, _, _ => []

/-- Model of `score_rfm` (src/rfm.py): `qcut` on raw Recency (descending
labels), `qcut` on `Frequency.rank(method='first')` and on raw Monetary
(ascending labels), evaluated in source order so the first pandas error
aborts the call. -/
def score_rfm (rfm : List RFMRow) : Except String (List ScoredRow) :=
  match qcut5 (rfm.map fun r => (r.Recency : ℚ)) with
  | .error e => .error e
  | .ok rbins =>
    match qcut5 (rankFirst (rfm.map fun r => (r.Frequency : ℚ))) with
    | .error e => .error e
    | .ok fbins =>
      match qcut5 (rfm.map (·.Monetary)) with
      | .error e => .error e
      | .ok mbins => .ok (zipScores rfm rbins fbins mbins)

/-! Embedding of `src/clustering.py`.  The DataFrame handed to this stage is
the RFM table re-read from CSV; the columns this module touches are the
three RFM metrics and the two columns it writes.  Python's in-place column
assignments (`df['Cluster'] = ...`, `df['Customer_Persona'] = ...`) are
modelled by state passing: each function returns the caller-visible state of
its DataFrame argument after the call (the Python return value aliases that
same object). -/

/-- One row of the DataFrame consumed by the clustering stage.  A field of
value `none` models a column that is absent from the frame;
`Customer_Persona = some none` models a present column holding `NaN`. -/
structure ClusterRow where
  customerID : Nat
  Recency : ℚ
  Frequency : ℚ
  Monetary : ℚ
  Cluster : Option Nat := none
  Customer_Persona : Option (Option String) := none
  deriving DecidableEq

/-- Transcendental primitives used by the feature transform (`np.log1p` and
the square root inside `StandardScaler`).  They are externally supplied
numeric routines, so the embedding keeps them abstract. -/
structure NumOps where
  log1p : ℚ → ℚ
  sqrt : ℚ → ℚ

/-- Arithmetic mean of a sample (0 for the empty sample, as a dummy). -/
def meanQ (xs : List ℚ) : ℚ := xs.sum / xs.length

/-- Model of the per-column scale of `StandardScaler`: the (biased)
population standard deviation, with a zero scale replaced by 1 exactly as
sklearn's `_handle_zeros_in_scale` does. -/
def stdQ (ops : NumOps) (xs : List ℚ) : ℚ :=
  let m := meanQ xs
  let s := ops.sqrt ((xs.map fun x => (x - m) ^ 2).sum / xs.length)
  if s = 0 then 1 else s

/-- Row-wise assembly of three feature columns into a feature matrix. -/
def rows3 : List ℚ → List ℚ → List ℚ → List (List ℚ)
  | a :: as', b :: bs', c :: cs' => [a, b, c] :: rows3 as' bs' cs'
  | _, _, _ => []

/-- Model of `preprocess_for_kmeans` (src/clustering.py): `log1p` each of
Recency, Frequency, Monetary, then standardize each column to zero mean and
unit variance over the population.  Returns the scaled feature matrix and
the fitted scaler parameters (mean, scale per column), mirroring the
`(rfm_scaled_df, scaler)` pair of the source. -/
def preprocess_for_kmeans (ops : NumOps) (df : List ClusterRow) :
    List (List ℚ) × List (ℚ × ℚ) :=
  let logR := df.map fun r => ops.log1p r.Recency
  let logF := df.map fun r => ops.log1p r.Frequency
  let logM := df.map fun r => ops.log1p r.Monetary
  let scale := fun xs : List ℚ =>
    let m := meanQ xs
    let s := stdQ ops xs
    xs.map fun x => (x - m) / s
  (rows3 (scale logR) (scale logF) (scale logM),
   [(meanQ logR, stdQ ops logR), (meanQ logF, stdQ ops logF), (meanQ logM, stdQ ops logM)])

/-- Result of a fitted sklearn `KMeans` model: the per-sample labels and the
final inertia. -/
structure KMRes where
  labels : List Nat
  inertia : ℚ

/-- Model of `KMeans(n_clusters=k, random_state=rs, n_init=m).fit(X)` by
sklearn's documented contract: it raises `ValueError` when `n_clusters < 1`
or when `n_samples < n_clusters`, and otherwise its outcome is a
deterministic function of the data, `n_clusters`, `n_init` and the resolved
seed, abstracted as `impl`.  With `random_state=None` sklearn draws from
global process entropy, modelled by `entropy`; a fixed `random_state`
ignores that source. -/
def KMeans_fit (impl : List (List ℚ) → Nat → Nat → Nat → KMRes)
    (X : List (List ℚ)) (n_clusters n_init : Nat) (random_state : Option Nat)
    (entropy : Nat) : Except String KMRes :=
  if n_clusters = 0 then
    .error "n_clusters should be an int in the range [1, inf)"
  else if X.length < n_clusters then
    .error "n_samples should be >= n_clusters"
  else
    .ok (impl X n_clusters n_init (random_state.getD entropy))

/-- Model of `find_optimal_k_elbow` (src/clustering.py): for each
`k = 1..max_k` fit `KMeans(n_clusters=k, random_state=42, n_init=10)` and
record `(k, inertia)`.  The source renders this curve to a PNG (I/O glue);
the model returns the curve itself, the observable content of that plot.
A pandas/sklearn exception aborts the loop, hence the `Except`. -/
def find_optimal_k_elbow (impl : List (List ℚ) → Nat → Nat → Nat → KMRes)
    (entropy : Nat) (scaled_df : List (List ℚ)) (max_k : Nat) :
    Except String (List (Nat × ℚ)) :=
  (List.range max_k).mapM fun k0 =>
    (KMeans_fit impl scaled_df (k0 + 1) 10 (some 42) entropy).map fun res =>
      (k0 + 1, res.inertia)

/-- Model of `apply_kmeans` (src/clustering.py): fit
`KMeans(n_clusters=k, random_state=42, n_init=10)` on `scaled_df`, then
execute `df['Cluster'] = kmeans.labels_`, which writes the label column into
the caller's DataFrame in place (pandas raises on a length mismatch).  The
returned list is the post-call state of the `df` argument, which the source
also returns. -/
def apply_kmeans (impl : List (List ℚ) → Nat → Nat → Nat → KMRes)
    (entropy : Nat) (df : List ClusterRow) (scaled_df : List (List ℚ))
    (k : Nat) : Except String (List ClusterRow) :=
  match KMeans_fit impl scaled_df k 10 (some 42) entropy with
  | .error e => .error e
  | .ok res =>
    if res.labels.length = df.length then
      .ok ((df.zip res.labels).map fun rc => { rc.1 with Cluster := some rc.2 })
    else .error "Length of values does not match length of index"

/-- Persona lookup table of `name_clusters` (src/clustering.py); `dict.map`
yields `NaN` (here `none`) for any cluster id outside the table. -/
def persona_mapping : Nat → Option String
  | 0 => some "Lost / Hibernating"
  | 1 => some "Champions"
  | 2 => some "Loyal / Promising"
  | 3 => some "At-Risk"
  | _ => none

/-- Model of `name_clusters` (src/clustering.py):
`df['Customer_Persona'] = df['Cluster'].map(persona_mapping)` written into
the caller's DataFrame in place.  Accessing `df['Cluster']` raises a
`KeyError` when the column is absent (every row `none` in this encoding);
unmapped cluster ids become `NaN` personas, not errors. -/
def name_clusters (df : List ClusterRow) : Except String (List ClusterRow) :=
  if df.all fun r => r.Cluster.isSome then
    .ok (df.map fun r => { r with Customer_Persona := some (r.Cluster.bind persona_mapping) })
  else .error "KeyError: Cluster"

/-- Round half to even (the rounding of `DataFrame.round` via
`numpy.around`). -/
def roundHalfEven (x : ℚ) : ℤ :=
  if x - ⌊x⌋ < 1 / 2 then ⌊x⌋
  else if x - ⌊x⌋ > 1 / 2 then ⌊x⌋ + 1
  else if 2 ∣ ⌊x⌋ then ⌊x⌋ else ⌊x⌋ + 1

/-- Rounding to two decimal places, `DataFrame.round(2)`. -/
def round2 (x : ℚ) : ℚ := (roundHalfEven (x * 100) : ℚ) / 100

/-- One row of the cluster profile summary. -/
structure SummaryRow where
  Cluster : Nat
  Customer_Persona : String
  Recency_mean : ℚ
  Frequency_mean : ℚ
  Monetary_mean : ℚ
  Monetary_count : Nat
  deriving DecidableEq

/-- Grouping key of `df.groupby(['Cluster', 'Customer_Persona'])`: rows
whose cluster or persona is missing (`NaN`) are dropped from the grouping,
as pandas drops missing group keys. -/
def keyOf (r : ClusterRow) : Option (Nat × String) :=
  match r.Cluster, r.Customer_Persona with
  | some c, some (some p) => some (c, p)
  | _, _ => none

/-- Distinct group keys in ascending (cluster, persona) order, as the
groupby result is sorted by key. -/
def groupKeys (df : List ClusterRow) : List (Nat × String) :=
  ((df.filterMap keyOf).dedup).insertionSort
    fun a b => a.1 < b.1 ∨ (a.1 = b.1 ∧ a.2 ≤ b.2)

/-- Model of `summarize_clusters` (src/clustering.py): per (cluster,
persona) group the means of Recency, Frequency and Monetary rounded to two
decimals, plus the member count.  The aggregation allocates a fresh frame;
the first component is the unchanged post-call state of the argument. -/
def summarize_clusters (df : List ClusterRow) : List ClusterRow × List SummaryRow :=
  (df, (groupKeys df).map fun cp =>
    let g := df.filter fun r => keyOf r = some cp
    { Cluster := cp.1
      Customer_Persona := cp.2
      Recency_mean := round2 (meanQ (g.map (·.Recency)))
      Frequency_mean := round2 (meanQ (g.map (·.Frequency)))
      Monetary_mean := round2 (meanQ (g.map (·.Monetary)))
      Monetary_count := g.length })

/-- Spec section 8 example: customer 1 with invoice A split over two lines
on Day 1 and invoice B on Day 5 (Day k is `(k-1)` days after the epoch). -/
def exampleTxs : List Transaction :=
  [ { invoiceNo := "A", customerID := 1, totalAmount := 100, invoiceDate := 0 }
  , { invoiceNo := "A", customerID := 1, totalAmount := 50, invoiceDate := 0 }
  , { invoiceNo := "B", customerID := 1, totalAmount := 200, invoiceDate := 4 * 86400 } ]

/-- Concrete RFM table with a single customer. -/
def rfm1 : List RFMRow :=
  [ { customerID := 7, Recency := 4, Frequency := 2, Monetary := 15 } ]

/-- Concrete RFM table with three customers and pairwise distinct metric
values. -/
def rfm3 : List RFMRow :=
  [ { customerID := 1, Recency := 1, Frequency := 1, Monetary := 10 }
  , { customerID := 2, Recency := 5, Frequency := 2, Monetary := 20 }
  , { customerID := 3, Recency := 9, Frequency := 3, Monetary := 30 } ]

/-- Concrete RFM table with five distinct customers sharing one Recency
value (mass ties in Recency, and all frequencies tied at 1). -/
def rfm5ties : List RFMRow :=
  [ { customerID := 1, Recency := 2, Frequency := 1, Monetary := 10 }
  , { customerID := 2, Recency := 2, Frequency := 1, Monetary := 20 }
  , { customerID := 3, Recency := 2, Frequency := 1, Monetary := 30 }
  , { customerID := 4, Recency := 2, Frequency := 1, Monetary := 40 }
  , { customerID := 5, Recency := 2, Frequency := 1, Monetary := 50 } ]

/-- Concrete RFM table with five distinct customers and spread-out values. -/
def rfm5 : List RFMRow :=
  [ { customerID := 1, Recency := 1, Frequency := 1, Monetary := 10 }
  , { customerID := 2, Recency := 3, Frequency := 1, Monetary := 25 }
  , { customerID := 3, Recency := 7, Frequency := 2, Monetary := 40 }
  , { customerID := 4, Recency := 9, Frequency := 5, Monetary := 55 }
  , { customerID := 5, Recency := 11, Frequency := 9, Monetary := 70 } ]

/-- Concrete stand-in for the abstract KMeans optimizer: every sample in
cluster 0, inertia 0. -/
def constKM : List (List ℚ) → Nat → Nat → Nat → KMRes :=
  fun X _ _ _ => { labels := List.replicate X.length 0, inertia := 0 }

/-- Concrete one-row clustering DataFrame (no Cluster/persona columns yet). -/
def cdf1 : List ClusterRow :=
  [ { customerID := 1, Recency := 10, Frequency := 2, Monetary := 50 } ]

/-- Concrete 1-sample scaled feature matrix matching `cdf1`. -/
def scaled1 : List (List ℚ) := [[0, 0, 0]]

/-- C4, counterexample: on the empty transaction table `calculate_rfm`
produces an (empty) output table instead of failing — `Series.max` on the
empty datetime column yields `NaT` and the empty groupby yields an empty
frame, so no exception is raised. -/
theorem C4_empty_input_cex : calculate_rfm [] = ([] : List RFMRow) := by
  with_unfolding_all decide

/-- C4, amended: for every empty transaction table, `calculate_rfm` returns
the empty RFM table (zero rows) rather than raising a validation error. -/
theorem C4_empty_input_returns_empty (df : List Transaction) (h : df.length = 0) :
    calculate_rfm df = [] := by
  rw [List.length_eq_zero] at h
  subst h
  with_unfolding_all decide

/-- C4, witness for the amended theorem at the empty table. -/
theorem C4_empty_input_returns_empty_witness :
    List.length ([] : List Transaction) = 0 ∧ calculate_rfm [] = [] :=
  ⟨rfl, C4_empty_input_returns_empty [] rfl⟩

/-- C5, counterexample: a table of three distinct customers (fewer than 5)
with pairwise distinct metric values is scored successfully — `score_rfm`
contains no customer-count validation, and `pd.qcut(..., q=5)` succeeds on
3 samples because the six interpolated quantile edges are still distinct. -/
theorem C5_three_customers_scored_cex :
    rfm3.length = 3 ∧ (rfm3.map (·.customerID)).Nodup ∧
      (score_rfm rfm3).isOk = true := by
  with_unfolding_all decide

/-- C5, amended: `score_rfm` performs no customer-count validation; with
fewer than 5 customers it still produces scores whenever the quantile bin
edges stay distinct, and it fails only when duplicate bin edges arise (a
pandas `ValueError`, not a ValidationError) — in particular it always fails
on a single-customer table, where all six Recency quantiles coincide. -/
theorem C5_single_customer_fails (rfm : List RFMRow) (h : rfm.length = 1) :
    score_rfm rfm = .error "Bin edges must be unique" := by
  obtain ⟨r, rfl⟩ := List.length_eq_one.mp h
  have hq : qcut5 [(r.Recency : ℚ)] = .error "Bin edges must be unique" := by
    simp [qcut5, qchain, qedge, sortQ, quantileSorted]
  simp [score_rfm, hq]

/-- C5, witness for the amended theorem at a one-customer table. -/
theorem C5_single_customer_fails_witness :
    rfm1.length = 1 ∧ score_rfm rfm1 = .error "Bin edges must be unique" :=
  ⟨rfl, C5_single_customer_fails rfm1 rfl⟩

/-- C2, counterexample: five distinct customers with identical Recency
values make `score_rfm` fail with pandas' duplicate-bin-edges error — the
stable tie-break via `rank(method='first')` is applied to Frequency only,
not to Recency or Monetary. -/
theorem C2_degenerate_recency_cex :
    rfm5ties.length = 5 ∧ (rfm5ties.map (·.customerID)).Nodup ∧
      score_rfm rfm5ties = .error "Bin edges must be unique" := by
  with_unfolding_all decide

/-- C6: when the chosen `k` exceeds the number of distinct customers (the
rows of the feature matrix, one per customer), `apply_kmeans` fails with
sklearn's n_samples-vs-n_clusters validation error instead of assigning
clusters. -/
theorem C6_k_exceeds_customers_fails
    (impl : List (List ℚ) → Nat → Nat → Nat → KMRes) (entropy : Nat)
    (df : List ClusterRow) (scaled_df : List (List ℚ)) (k : Nat)
    (hdistinct : (df.map (·.customerID)).Nodup)
    (hrows : scaled_df.length = df.length) (hk : df.length < k) :
    apply_kmeans impl entropy df scaled_df k =
      .error "n_samples should be >= n_clusters" := by
  have hk0 : ¬ (k = 0) := by omega
  have hlt : scaled_df.length < k := by omega
  unfold apply_kmeans KMeans_fit
  simp [hk0, hlt]

/-- C6, witness: one customer, `k = 2`. -/
theorem C6_k_exceeds_customers_fails_witness :
    (cdf1.map (·.customerID)).Nodup ∧ scaled1.length = cdf1.length ∧
      cdf1.length < 2 ∧
      apply_kmeans constKM 0 cdf1 scaled1 2 =
        .error "n_samples should be >= n_clusters" :=
  ⟨by decide, rfl, by decide,
    C6_k_exceeds_customers_fails constKM 0 cdf1 scaled1 2 (by decide) rfl
      (by decide)⟩

/-- C3: the clustering pipeline is deterministic — with the seed fixed at
42 in the source, the elbow curve and the cluster assignments do not depend
on the ambient entropy that an unseeded sklearn run would consume, so two
runs on identical input are identical, for every choice of the abstract
numeric routines and KMeans optimizer. -/
theorem C3_pipeline_deterministic (ops : NumOps)
    (impl : List (List ℚ) → Nat → Nat → Nat → KMRes) (e1 e2 : Nat)
    (df : List ClusterRow) (max_k k : Nat) :
    find_optimal_k_elbow impl e1 (preprocess_for_kmeans ops df).1 max_k =
        find_optimal_k_elbow impl e2 (preprocess_for_kmeans ops df).1 max_k
      ∧ apply_kmeans impl e1 df (preprocess_for_kmeans ops df).1 k =
          apply_kmeans impl e2 df (preprocess_for_kmeans ops df).1 k :=
  ⟨rfl, rfl⟩

/-- Post-state of `cdf1` after `apply_kmeans` with the constant optimizer:
the Cluster column has been written into the row. -/
def cdf1c : List ClusterRow :=
  [ { customerID := 1, Recency := 10, Frequency := 2, Monetary := 50,
      Cluster := some 0 } ]

/-- C9, counterexample: `apply_kmeans` does not leave the DataFrame passed
to it unchanged — `df['Cluster'] = kmeans.labels_` writes the new column
into the caller's object, so the post-call state of the argument differs
from the value passed in. -/
theorem C9_apply_kmeans_mutates_cex :
    apply_kmeans constKM 0 cdf1 scaled1 1 = .ok cdf1c ∧ cdf1c ≠ cdf1 := by
  with_unfolding_all decide

/-- C9, amended: `summarize_clusters` is a pure read-only aggregation that
leaves the state of its argument unchanged, but `apply_kmeans` writes the
Cluster column into the caller's DataFrame in place: on success every row
of the post-call state carries a Cluster value. -/
theorem C9_summarize_readonly_apply_kmeans_writes :
    (∀ df : List ClusterRow, (summarize_clusters df).1 = df) ∧
    ∀ (impl : List (List ℚ) → Nat → Nat → Nat → KMRes) (entropy : Nat)
      (df : List ClusterRow) (scaled_df : List (List ℚ)) (k : Nat)
      (out : List ClusterRow),
      apply_kmeans impl entropy df scaled_df k = .ok out →
      ∀ r ∈ out, r.Cluster.isSome := by
  refine ⟨fun df => rfl, ?_⟩
  intro impl entropy df scaled_df k out h r hr
  cases hfit : KMeans_fit impl scaled_df k 10 (some 42) entropy with
  | error e => simp [apply_kmeans, hfit] at h
  | ok res =>
    by_cases hlen : res.labels.length = df.length
    · simp only [apply_kmeans, hfit, if_pos hlen, Except.ok.injEq] at h
      subst h
      obtain ⟨rc, _, rfl⟩ := List.mem_map.mp hr
      rfl
    · simp [apply_kmeans, hfit, hlen] at h

/-- C9, witness for the amended theorem: summarization leaves the concrete
one-row frame untouched, and the row produced by the concrete
`apply_kmeans` run carries a Cluster value. -/
theorem C9_summarize_readonly_apply_kmeans_writes_witness :
    (summarize_clusters cdf1).1 = cdf1 ∧
      ({ customerID := 1, Recency := 10, Frequency := 2, Monetary := 50,
         Cluster := some 0 } : ClusterRow).Cluster.isSome :=
  ⟨C9_summarize_readonly_apply_kmeans_writes.1 cdf1,
   C9_summarize_readonly_apply_kmeans_writes.2 constKM 0 cdf1 scaled1 1 cdf1c
     (by with_unfolding_all decide) _ (List.mem_singleton.mpr rfl)⟩

/-- Unmapped cluster ids fall through the persona dictionary. -/
theorem persona_mapping_none (c : Nat) (h : 3 < c) : persona_mapping c = none := by
  match c, h with
  | n + 4, _ => rfl

/-- Concrete labelled frame whose only row sits in cluster 5, outside the
persona table. -/
def cdf10 : List ClusterRow :=
  [ { customerID := 2, Recency := 1, Frequency := 1, Monetary := 5,
      Cluster := some 5 } ]

/-- State of `cdf10` after `name_clusters`: persona column present but NaN. -/
def cdf10' : List ClusterRow :=
  [ { customerID := 2, Recency := 1, Frequency := 1, Monetary := 5,
      Cluster := some 5, Customer_Persona := some none } ]

/-- C10: when the Cluster column is present, `name_clusters` never fails,
and every row whose cluster id lies outside `{0, 1, 2, 3}` receives a
missing (NaN) `Customer_Persona`, so the labelled output can silently
contain customers with no persona. -/
theorem C10_unmapped_cluster_gets_nan_persona (df : List ClusterRow)
    (hcol : ∀ r ∈ df, r.Cluster.isSome) :
    (name_clusters df).isOk = true ∧
    ∀ (out : List ClusterRow), name_clusters df = .ok out →
      ∀ (i : Nat) (hi : i < df.length) (c : Nat),
        (df.get ⟨i, hi⟩).Cluster = some c → 3 < c →
        ∀ (hi' : i < out.length), (out.get ⟨i, hi'⟩).Customer_Persona = some none := by
  have hall : (df.all fun r => r.Cluster.isSome) = true := List.all_eq_true.mpr hcol
  have hok : name_clusters df =
      .ok (df.map fun r => { r with Customer_Persona := some (r.Cluster.bind persona_mapping) }) := by
    rw [name_clusters, if_pos hall]
  refine ⟨by rw [hok]; rfl, ?_⟩
  intro out hout i hi c hc hc4 hi'
  rw [hok] at hout
  cases hout
  rw [List.get_map]
  show some ((df.get ⟨i, hi⟩).Cluster.bind persona_mapping) = some none
  rw [hc]
  show some (persona_mapping c) = some none
  rw [persona_mapping_none c hc4]

/-- Sorting the deduplicated customer ids keeps them duplicate-free. -/
theorem sortedCustomers_nodup (df : List Transaction) : (sortedCustomers df).Nodup :=
  ((List.perm_insertionSort _ _).nodup_iff).mpr (List.nodup_dedup _)

/-- Membership in the group keys is membership in the customer column. -/
theorem mem_sortedCustomers {df : List Transaction} {c : Nat} :
    c ∈ sortedCustomers df ↔ c ∈ df.map (·.customerID) := by
  simp [sortedCustomers]

/-- A duplicate-free list containing `c` keeps exactly one element when
filtered for `c`. -/
theorem length_filter_eq_of_nodup {l : List Nat} {c : Nat} (hn : l.Nodup)
    (hm : c ∈ l) : (l.filter fun x => x = c).length = 1 := by
  induction l with
  | nil => cases hm
  | cons a l ih =>
    rw [List.nodup_cons] at hn
    rcases List.mem_cons.mp hm with h | h
    · subst h
      have hnil : l.filter (fun x => x = c) = [] := by
        rw [List.filter_eq_nil_iff]
        intro b hb
        simp only [decide_eq_true_eq]
        exact fun hba => hn.1 (hba ▸ hb)
      simp [List.filter_cons, hnil]
    · have hac : ¬(a = c) := fun hac => hn.1 (hac ▸ h)
      simp [List.filter_cons, hac, ih hn.2 h]

/-- C1: on every non-empty cleaned transaction table, `calculate_rfm` emits
exactly one row per distinct CustomerID; each row's Recency is the whole-day
floor difference between the snapshot instant (global max InvoiceDate plus
one day) and that customer's max InvoiceDate, its Frequency is the number
of distinct InvoiceNo values of that customer, and its Monetary is the sum
of the customer's TotalAmount values; on the spec's three-transaction
example the single row is (recency 1, frequency 2, monetary 350). -/
theorem C1_calculate_rfm_spec (df : List Transaction) (hne : df ≠ []) :
    ((calculate_rfm df).length = (df.map (·.customerID)).toFinset.card
      ∧ (∀ c ∈ df.map (·.customerID),
          ((calculate_rfm df).filter fun r => r.customerID = c).length = 1)
      ∧ ∀ r ∈ calculate_rfm df,
          r.customerID ∈ df.map (·.customerID)
          ∧ r.Recency = ((maxInvoiceDate df + oneDay) -
              maxInvoiceDate (df.filter fun t => t.customerID = r.customerID)).fdiv oneDay
          ∧ r.Frequency =
              (((df.filter fun t => t.customerID = r.customerID).map (·.invoiceNo)).toFinset).card
          ∧ r.Monetary =
              ((df.filter fun t => t.customerID = r.customerID).map (·.totalAmount)).sum)
    ∧ calculate_rfm exampleTxs =
        [{ customerID := 1, Recency := 1, Frequency := 2, Monetary := 350 }] := by
  refine ⟨⟨?_, ?_, ?_⟩, by with_unfolding_all decide⟩
  · rw [calculate_rfm, List.length_map, sortedCustomers,
      (List.perm_insertionSort _ _).length_eq, List.card_toFinset]
  · intro c hc
    rw [calculate_rfm, List.filter_map, List.length_map]
    have hcongr : (sortedCustomers df).filter ((fun r : RFMRow => decide (r.customerID = c)) ∘ rfmRowOf df)
        = (sortedCustomers df).filter fun x => x = c := by
      apply List.filter_congr
      intro x _
      rfl
    rw [hcongr]
    exact length_filter_eq_of_nodup (sortedCustomers_nodup df)
      (mem_sortedCustomers.mpr hc)
  · intro r hr
    obtain ⟨c, hc, rfl⟩ := List.mem_map.mp hr
    exact ⟨mem_sortedCustomers.mp hc, rfl, rfl, rfl⟩

/-- C1, witness at the spec's three-transaction example. -/
theorem C1_calculate_rfm_spec_witness :
    exampleTxs ≠ [] ∧ calculate_rfm exampleTxs =
      [{ customerID := 1, Recency := 1, Frequency := 2, Monetary := 350 }] :=
  ⟨by with_unfolding_all decide,
   (C1_calculate_rfm_spec exampleTxs (by with_unfolding_all decide)).2⟩

/-- C10, witness at the concrete frame `cdf10`. -/
theorem C10_unmapped_cluster_gets_nan_persona_witness :
    (name_clusters cdf10).isOk = true ∧
      (cdf10'.get ⟨0, by decide⟩).Customer_Persona = some none :=
  ⟨(C10_unmapped_cluster_gets_nan_persona cdf10 (by decide)).1,
   (C10_unmapped_cluster_gets_nan_persona cdf10 (by decide)).2 cdf10'
     (by with_unfolding_all decide) 0 (by decide) 5 (by with_unfolding_all decide)
     (by decide) (by decide)⟩

/-- Bin indices produced by `binAssign` never exceed 4. -/
theorem binAssign_le_four {v e0 e1 e2 e3 e4 e5 : ℚ} {b : Nat}
    (h : binAssign v e0 e1 e2 e3 e4 e5 = some b) : b ≤ 4 := by
  unfold binAssign at h
  split_ifs at h <;> simp_all <;> omega

/-- Binning is monotone in the value: a smaller sample value never lands in
a later bin. -/
theorem binAssign_mono {v1 v2 e0 e1 e2 e3 e4 e5 : ℚ} {b1 b2 : Nat}
    (hv : v1 ≤ v2) (h1 : binAssign v1 e0 e1 e2 e3 e4 e5 = some b1)
    (h2 : binAssign v2 e0 e1 e2 e3 e4 e5 = some b2) : b1 ≤ b2 := by
  unfold binAssign at h1 h2
  split_ifs at h1 h2 <;> simp_all <;> first | omega | linarith

/-- Characterization of a successful `qcut5` run: the six edges are
strictly increasing, every sample value receives a bin, and the output is
the per-value bin assignment. -/
theorem qcut5_ok {xs : List ℚ} {bins : List Nat} (h : qcut5 xs = .ok bins) :
    qchain xs ∧ (∀ v ∈ xs, (assignOf xs v).isSome) ∧
      bins = xs.map fun v => (assignOf xs v).getD 0 := by
  unfold qcut5 at h
  split_ifs at h with h1 h2
  · refine ⟨h1, ?_, (((Except.ok.injEq _ _).mp h)).symm⟩
    intro v hv
    exact List.all_eq_true.mp h2 _ (List.mem_map_of_mem (assignOf xs) hv)

/-- All bins of a successful `qcut5` run lie in `0..4`. -/
theorem qcut5_ok_le_four {xs : List ℚ} {bins : List Nat} (h : qcut5 xs = .ok bins) :
    ∀ b ∈ bins, b ≤ 4 := by
  obtain ⟨_, hall, rfl⟩ := qcut5_ok h
  intro b hb
  obtain ⟨v, hv, rfl⟩ := List.mem_map.mp hb
  obtain ⟨j, hj⟩ := Option.isSome_iff_exists.mp (hall v hv)
  rw [hj, Option.getD_some]
  exact binAssign_le_four hj

/-- Decomposition of a successful `score_rfm` run into its three qcut
calls. -/
theorem score_rfm_ok {rfm : List RFMRow} {out : List ScoredRow}
    (h : score_rfm rfm = .ok out) :
    ∃ rbins fbins mbins,
      qcut5 (rfm.map fun r => (r.Recency : ℚ)) = .ok rbins ∧
      qcut5 (rankFirst (rfm.map fun r => (r.Frequency : ℚ))) = .ok fbins ∧
      qcut5 (rfm.map (·.Monetary)) = .ok mbins ∧
      out = zipScores rfm rbins fbins mbins := by
  cases h1 : qcut5 (rfm.map fun r => (r.Recency : ℚ)) with
  | error e => simp [score_rfm, h1] at h
  | ok rbins =>
    cases h2 : qcut5 (rankFirst (rfm.map fun r => (r.Frequency : ℚ))) with
    | error e => simp [score_rfm, h1, h2] at h
    | ok fbins =>
      cases h3 : qcut5 (rfm.map (·.Monetary)) with
      | error e => simp [score_rfm, h1, h2, h3] at h
      | ok mbins =>
        simp only [score_rfm, h1, h2, h3, Except.ok.injEq] at h
        exact ⟨rbins, fbins, mbins, rfl, rfl, rfl, h.symm⟩

/-- Every row of the zipped scored table comes from one RFM row and one bin
from each of the three bin lists. -/
theorem mem_zipScores {rs : List RFMRow} {as' bs' cs' : List Nat} {r : ScoredRow}
    (h : r ∈ zipScores rs as' bs' cs') :
    ∃ x a b c, x ∈ rs ∧ a ∈ as' ∧ b ∈ bs' ∧ c ∈ cs' ∧ r = mkScored x a b c := by
  induction rs generalizing as' bs' cs' with
  | nil => simp [zipScores] at h
  | cons x rs ih =>
    match as', bs', cs' with
    | [], _, _ => simp [zipScores] at h
    | _ :: _, [], _ => simp [zipScores] at h
    | _ :: _, _ :: _, [] => simp [zipScores] at h
    | a :: as', b :: bs', c :: cs' =>
      rw [zipScores] at h
      rcases List.mem_cons.mp h with h | h
      · exact ⟨x, a, b, c, .head _, .head _, .head _, .head _, h⟩
      · obtain ⟨x', a', b', c', hx, ha, hb, hc, rfl⟩ := ih h
        exact ⟨x', a', b', c', .tail _ hx, .tail _ ha, .tail _ hb, .tail _ hc, rfl⟩

/-- When the first bin list is computed row-wise from the RFM rows, each
scored row records its own row's bin there. -/
theorem mem_zipScores_fst {rs : List RFMRow} {f : RFMRow → Nat} {bs' cs' : List Nat}
    {r : ScoredRow} (h : r ∈ zipScores rs (rs.map f) bs' cs') :
    ∃ x b c, x ∈ rs ∧ r = mkScored x (f x) b c := by
  induction rs generalizing bs' cs' with
  | nil => simp [zipScores] at h
  | cons x rs ih =>
    match bs', cs' with
    | [], _ => simp [List.map_cons, zipScores] at h
    | _ :: _, [] => simp [List.map_cons, zipScores] at h
    | b :: bs', c :: cs' =>
      rw [List.map_cons, zipScores] at h
      rcases List.mem_cons.mp h with h | h
      · exact ⟨x, b, c, .head _, h⟩
      · obtain ⟨x', b', c', hx, rfl⟩ := ih h
        exact ⟨x', b', c', .tail _ hx, rfl⟩

/-- Scored table produced by `score_rfm` on `rfm5`. -/
def scored5 : List ScoredRow :=
  [ { customerID := 1, Recency := 1, Frequency := 1, Monetary := 10,
      R_Score := 5, F_Score := 1, M_Score := 1, RFM_Segment := "511",
      RFM_Score_Sum := 7 }
  , { customerID := 2, Recency := 3, Frequency := 1, Monetary := 25,
      R_Score := 4, F_Score := 2, M_Score := 2, RFM_Segment := "422",
      RFM_Score_Sum := 8 }
  , { customerID := 3, Recency := 7, Frequency := 2, Monetary := 40,
      R_Score := 3, F_Score := 3, M_Score := 3, RFM_Segment := "333",
      RFM_Score_Sum := 9 }
  , { customerID := 4, Recency := 9, Frequency := 5, Monetary := 55,
      R_Score := 2, F_Score := 4, M_Score := 4, RFM_Segment := "244",
      RFM_Score_Sum := 10 }
  , { customerID := 5, Recency := 11, Frequency := 9, Monetary := 70,
      R_Score := 1, F_Score := 5, M_Score := 5, RFM_Segment := "155",
      RFM_Score_Sum := 11 } ]

/-- Evaluation of the scorer on the concrete five-customer table. -/
theorem score_rfm_rfm5 : score_rfm rfm5 = .ok scored5 := by
  with_unfolding_all decide

/-- First row of `scored5`. -/
def row51 : ScoredRow :=
  { customerID := 1, Recency := 1, Frequency := 1, Monetary := 10,
    R_Score := 5, F_Score := 1, M_Score := 1, RFM_Segment := "511",
    RFM_Score_Sum := 7 }

/-- Second row of `scored5`. -/
def row52 : ScoredRow :=
  { customerID := 2, Recency := 3, Frequency := 1, Monetary := 25,
    R_Score := 4, F_Score := 2, M_Score := 2, RFM_Segment := "422",
    RFM_Score_Sum := 8 }

/-- C7: every scored customer has all three scores in `1..5`, a segment
code that is exactly the concatenation of the R, F, M scores in that order,
and a score sum equal to the integer sum of the three scores, lying in
`[3, 15]`. -/
theorem C7_segment_and_sum (rfm : List RFMRow) (out : List ScoredRow)
    (h : score_rfm rfm = .ok out) :
    ∀ r ∈ out,
      (1 ≤ r.R_Score ∧ r.R_Score ≤ 5) ∧ (1 ≤ r.F_Score ∧ r.F_Score ≤ 5)
      ∧ (1 ≤ r.M_Score ∧ r.M_Score ≤ 5)
      ∧ r.RFM_Segment = toString r.R_Score ++ toString r.F_Score ++ toString r.M_Score
      ∧ r.RFM_Score_Sum = r.R_Score + r.F_Score + r.M_Score
      ∧ (3 ≤ r.RFM_Score_Sum ∧ r.RFM_Score_Sum ≤ 15) := by
  obtain ⟨rbins, fbins, mbins, h1, h2, h3, rfl⟩ := score_rfm_ok h
  intro r hr
  obtain ⟨x, a, b, c, hx, ha, hb, hc, rfl⟩ := mem_zipScores hr
  have ha4 := qcut5_ok_le_four h1 a ha
  have hb4 := qcut5_ok_le_four h2 b hb
  have hc4 := qcut5_ok_le_four h3 c hc
  simp only [mkScored]
  refine ⟨⟨?_, ?_⟩, ⟨?_, ?_⟩, ⟨?_, ?_⟩, trivial, trivial, ?_, ?_⟩ <;> omega

/-- C7, witness at the first row of the concrete scored table. -/
theorem C7_segment_and_sum_witness :
    (1 ≤ row51.R_Score ∧ row51.R_Score ≤ 5)
    ∧ (1 ≤ row51.F_Score ∧ row51.F_Score ≤ 5)
    ∧ (1 ≤ row51.M_Score ∧ row51.M_Score ≤ 5)
    ∧ row51.RFM_Segment =
        toString row51.R_Score ++ toString row51.F_Score ++ toString row51.M_Score
    ∧ row51.RFM_Score_Sum = row51.R_Score + row51.F_Score + row51.M_Score
    ∧ (3 ≤ row51.RFM_Score_Sum ∧ row51.RFM_Score_Sum ≤ 15) :=
  C7_segment_and_sum rfm5 scored5 score_rfm_rfm5 row51
    (by with_unfolding_all decide)

/-- C8: Recency scoring is inverted — in any successfully scored
population, a customer with smaller (or equal) Recency receives an R score
at least as high as the other customer's. -/
theorem C8_recency_score_inverted (rfm : List RFMRow) (out : List ScoredRow)
    (h : score_rfm rfm = .ok out) (r1 r2 : ScoredRow)
    (h1 : r1 ∈ out) (h2 : r2 ∈ out) (hrec : r1.Recency ≤ r2.Recency) :
    r2.R_Score ≤ r1.R_Score := by
  obtain ⟨rbins, fbins, mbins, hq1, hq2, hq3, rfl⟩ := score_rfm_ok h
  obtain ⟨hchain, hall, hbins⟩ := qcut5_ok hq1
  rw [hbins, List.map_map] at h1 h2
  obtain ⟨x1, b1, c1, hx1, hr1⟩ := mem_zipScores_fst h1
  obtain ⟨x2, b2, c2, hx2, hr2⟩ := mem_zipScores_fst h2
  subst hr1
  subst hr2
  have hs1 := hall _ (List.mem_map_of_mem (fun r : RFMRow => (r.Recency : ℚ)) hx1)
  have hs2 := hall _ (List.mem_map_of_mem (fun r : RFMRow => (r.Recency : ℚ)) hx2)
  obtain ⟨j1, hj1⟩ := Option.isSome_iff_exists.mp hs1
  obtain ⟨j2, hj2⟩ := Option.isSome_iff_exists.mp hs2
  have hrecx : ((x1.Recency : ℚ)) ≤ ((x2.Recency : ℚ)) := by
    have hx : x1.Recency ≤ x2.Recency := hrec
    exact_mod_cast hx
  have hjle := binAssign_mono hrecx hj1 hj2
  have hb1 := binAssign_le_four hj1
  have hb2 := binAssign_le_four hj2
  simp only [mkScored, Function.comp]
  rw [hj1, hj2, Option.getD_some, Option.getD_some]
  omega

/-- C8, witness at the first two rows of the concrete scored table. -/
theorem C8_recency_score_inverted_witness :
    row52.R_Score ≤ row51.R_Score :=
  C8_recency_score_inverted rfm5 scored5 score_rfm_rfm5 row51 row52
    (by with_unfolding_all decide) (by with_unfolding_all decide)
    (by with_unfolding_all decide)

/-- No position is ranked before itself. -/
theorem rankLess_irrefl (xs : List ℚ) (i : Nat) : i ∉ rankLess xs i := by
  simp [rankLess]

/-- Positions strictly earlier in the tie-broken order have strictly
smaller predecessor counts. -/
theorem rankLess_card_lt {xs : List ℚ} {i j : Nat} (hi : i < xs.length)
    (hij : xs.getD i 0 < xs.getD j 0 ∨ (xs.getD i 0 = xs.getD j 0 ∧ i < j)) :
    (rankLess xs i).card < (rankLess xs j).card := by
  have hsub : insert i (rankLess xs i) ⊆ rankLess xs j := by
    intro k hk
    rcases Finset.mem_insert.mp hk with rfl | hk
    · exact Finset.mem_filter.mpr ⟨Finset.mem_range.mpr hi, hij⟩
    · obtain ⟨hkr, hcmp⟩ := Finset.mem_filter.mp hk
      refine Finset.mem_filter.mpr ⟨hkr, ?_⟩
      rcases hcmp with hlt | ⟨heq, hklt⟩
      · rcases hij with h2 | ⟨h2, _⟩
        · exact Or.inl (lt_trans hlt h2)
        · exact Or.inl (h2 ▸ hlt)
      · rcases hij with h2 | ⟨h2, hijlt⟩
        · exact Or.inl (heq ▸ h2)
        · exact Or.inr ⟨heq.trans h2, lt_trans hklt hijlt⟩
  have hcard := Finset.card_le_card hsub
  rw [Finset.card_insert_of_not_mem (rankLess_irrefl xs i)] at hcard
  omega

/-- Totality of the tie-broken order on distinct positions. -/
theorem rankLess_total (xs : List ℚ) {i j : Nat} (hne : i ≠ j) :
    (xs.getD i 0 < xs.getD j 0 ∨ (xs.getD i 0 = xs.getD j 0 ∧ i < j))
    ∨ (xs.getD j 0 < xs.getD i 0 ∨ (xs.getD j 0 = xs.getD i 0 ∧ j < i)) := by
  rcases lt_trichotomy (xs.getD i 0) (xs.getD j 0) with h | h | h
  · exact Or.inl (Or.inl h)
  · rcases Nat.lt_or_ge i j with hij | hij
    · exact Or.inl (Or.inr ⟨h, hij⟩)
    · exact Or.inr (Or.inr ⟨h.symm, by omega⟩)
  · exact Or.inr (Or.inl h)

/-- Distinct positions receive distinct predecessor counts. -/
theorem rankLess_card_inj {xs : List ℚ} {i j : Nat} (hi : i < xs.length)
    (hj : j < xs.length) (h : (rankLess xs i).card = (rankLess xs j).card) :
    i = j := by
  by_contra hne
  rcases rankLess_total xs hne with hij | hji
  · exact absurd h (Nat.ne_of_lt (rankLess_card_lt hi hij))
  · exact absurd h.symm (Nat.ne_of_lt (rankLess_card_lt hj hji))

/-- Predecessor counts stay below the sample size. -/
theorem rankLess_card_le {xs : List ℚ} {i : Nat} (hi : i < xs.length) :
    (rankLess xs i).card ≤ xs.length - 1 := by
  have hsub : rankLess xs i ⊆ (Finset.range xs.length).erase i := by
    intro k hk
    obtain ⟨hkr, hcmp⟩ := Finset.mem_filter.mp hk
    refine Finset.mem_erase.mpr ⟨?_, hkr⟩
    rintro rfl
    rcases hcmp with hlt | ⟨_, hklt⟩
    · exact absurd hlt (lt_irrefl _)
    · exact absurd hklt (lt_irrefl _)
  have hcard := Finset.card_le_card hsub
  rwa [Finset.card_erase_of_mem (Finset.mem_range.mpr hi), Finset.card_range]
    at hcard

/-- The predecessor counts over all positions are a permutation of
`0..n-1`. -/
theorem rankLess_card_perm (xs : List ℚ) :
    ((List.range xs.length).map fun i => (rankLess xs i).card).Perm
      (List.range xs.length) := by
  have hnodup : ((List.range xs.length).map fun i => (rankLess xs i).card).Nodup := by
    refine List.Nodup.map_on ?_ (List.nodup_range xs.length)
    intro i hi j hj hfe
    exact rankLess_card_inj (List.mem_range.mp hi) (List.mem_range.mp hj) hfe
  refine List.perm_of_nodup_nodup_toFinset_eq hnodup (List.nodup_range xs.length) ?_
  apply Finset.eq_of_subset_of_card_le
  · intro b hb
    rw [List.mem_toFinset] at hb
    obtain ⟨i, hi, rfl⟩ := List.mem_map.mp hb
    rw [List.mem_toFinset, List.mem_range]
    have h1 : (rankLess xs i).card ≤ xs.length - 1 :=
      rankLess_card_le (List.mem_range.mp hi)
    have h2 : 0 < xs.length := lt_of_le_of_lt (Nat.zero_le _) (List.mem_range.mp hi)
    omega
  · rw [List.toFinset_card_of_nodup hnodup,
      List.toFinset_card_of_nodup (List.nodup_range xs.length),
      List.length_map]

/-- The ranks produced by `rank(method='first')` are exactly `1..n` in some
order. -/
theorem rankFirst_perm (xs : List ℚ) :
    (rankFirst xs).Perm ((List.range xs.length).map fun k => ((k + 1 : Nat) : ℚ)) := by
  have hcast : rankFirst xs =
      ((List.range xs.length).map fun i => (rankLess xs i).card).map
        fun s => ((s + 1 : Nat) : ℚ) := by
    rw [rankFirst, List.map_map]
    apply List.map_congr_left
    intro i _
    simp only [Function.comp_apply]
    push_cast
    ring
  rw [hcast]
  have := (rankLess_card_perm xs).map fun s : Nat => ((s + 1 : Nat) : ℚ)
  exact this

/-- Canonical ascending rank list `1..n`, as rationals. -/
def rankRange (n : Nat) : List ℚ := (List.range n).map fun k => ((k + 1 : Nat) : ℚ)

/-- Ascending ranks are sorted. -/
theorem rankRange_sorted (n : Nat) : List.Sorted (· ≤ ·) (rankRange n) :=
  List.Pairwise.map _
    (fun a b hab => by exact_mod_cast Nat.succ_le_succ (Nat.le_of_lt hab))
    (List.pairwise_lt_range n)

/-- Element access in the ascending rank list. -/
theorem rankRange_getD {n i : Nat} (hi : i < n) :
    (rankRange n).getD i 0 = ((i + 1 : Nat) : ℚ) := by
  unfold rankRange
  rw [List.getD_eq_getElem _ _ (by simpa using hi), List.getElem_map,
    List.getElem_range]

/-- Sorting the tie-broken ranks yields exactly `1..n`. -/
theorem sortQ_rankFirst (xs : List ℚ) :
    sortQ (rankFirst xs) = rankRange xs.length :=
  List.eq_of_perm_of_sorted
    ((List.perm_insertionSort _ _).trans (rankFirst_perm xs))
    (List.sorted_insertionSort _ _) (rankRange_sorted _)

/-- Interpolated quantile of the ascending ranks `1..n`: linear
interpolation of an arithmetic sequence is affine, so the `j/5`-quantile is
`1 + j*(n-1)/5`. -/
theorem quantile_rankRange {n : Nat} (hn : 1 ≤ n) {j : Nat} (hj : j ≤ 5) :
    quantileSorted (rankRange n) ((j : ℚ) / 5) =
      1 + ((j * (n - 1) : Nat) : ℚ) / 5 := by
  obtain ⟨m, rfl⟩ : ∃ m, n = m + 1 := ⟨n - 1, by omega⟩
  have hlen : (rankRange (m + 1)).length = m + 1 := by simp [rankRange]
  have hh : ((j : ℚ) / 5) * (((m + 1 : Nat) : ℚ) - 1) = ((j * m : Nat) : ℚ) / 5 := by
    push_cast
    ring
  have hfl : (⌊((j * m : Nat) : ℚ) / 5⌋).toNat = (j * m) / 5 := by
    rw [Int.floor_toNat, show ((5 : ℚ)) = ((5 : Nat) : ℚ) by norm_num,
      Nat.floor_div_nat, Nat.floor_natCast]
  have him : (j * m) / 5 ≤ m := by
    have h1 : j * m ≤ 5 * m := Nat.mul_le_mul_right m hj
    have h2 := Nat.div_le_div_right (c := 5) h1
    rwa [Nat.mul_div_cancel_left m (by norm_num)] at h2
  simp only [quantileSorted, hlen, Nat.add_sub_cancel]
  rw [hh, hfl]
  rcases Nat.lt_or_ge ((j * m) / 5) m with hi | hi
  · rw [rankRange_getD (by omega), rankRange_getD (by omega)]
    push_cast
    ring
  · have hieq : (j * m) / 5 = m := le_antisymm him hi
    rw [hieq, rankRange_getD (by omega), List.getD_eq_default _ _ (by omega)]
    have h5 : ((j * m : Nat) : ℚ) / 5 = (m : ℚ) := by
      have hle : ((j * m : Nat) : ℚ) / 5 ≤ (m : ℚ) := by
        rw [div_le_iff₀ (by norm_num)]
        exact_mod_cast Nat.mul_le_mul_right m hj |>.trans_eq (Nat.mul_comm 5 m)
      have hge : (m : ℚ) ≤ ((j * m : Nat) : ℚ) / 5 := by
        rw [le_div_iff₀ (by norm_num)]
        have := Nat.div_mul_le_self (j * m) 5
        rw [hieq] at this
        exact_mod_cast this
      linarith
    rw [h5]
    push_cast
    ring

/-- Nat-level quantile cut `⌊j*m/5⌋` for the rank sample `1..m+1`. -/
def natCut (m j : Nat) : Nat := (j * m) / 5

/-- Nat-level bin of rank index `k` (rank `k+1`) in the sample `1..m+1`. -/
def binNat (m k : Nat) : Nat :=
  if k ≤ natCut m 1 then 0
  else if k ≤ natCut m 2 then 1
  else if k ≤ natCut m 3 then 2
  else if k ≤ natCut m 4 then 3
  else 4

/-- The six qcut edges of the tie-broken rank sample. -/
theorem qedge_rankFirst {xs : List ℚ} (hn : 1 ≤ xs.length) {j : Nat} (hj : j ≤ 5) :
    qedge (rankFirst xs) j = 1 + ((j * (xs.length - 1) : Nat) : ℚ) / 5 := by
  unfold qedge
  rw [sortQ_rankFirst]
  exact quantile_rankRange hn hj

/-- Comparison of an integer rank against a rank-sample quantile edge,
reduced to natural arithmetic. -/
theorem rank_le_edge_iff {k m j : Nat} :
    (((k + 1 : Nat) : ℚ) ≤ 1 + ((j * m : Nat) : ℚ) / 5) ↔ k ≤ natCut m j := by
  have h1 : (((k + 1 : Nat) : ℚ) ≤ 1 + ((j * m : Nat) : ℚ) / 5)
      ↔ ((k : ℚ) ≤ ((j * m : Nat) : ℚ) / 5) := by
    push_cast
    constructor <;> intro <;> linarith
  rw [h1, le_div_iff₀ (by norm_num)]
  have h2 : ((k : ℚ) * 5 ≤ ((j * m : Nat) : ℚ)) ↔ (k * 5 ≤ j * m) := by
    exact_mod_cast Iff.rfl
  rw [h2]
  unfold natCut
  exact (Nat.le_div_iff_mul_le (by norm_num)).symm

/-- On the tie-broken rank sample, the qcut bin of rank `k+1` is exactly
the Nat-level bin `binNat`. -/
theorem assignOf_rankFirst {xs : List ℚ} (hn : 1 ≤ xs.length) {k : Nat}
    (hk : k < xs.length) :
    assignOf (rankFirst xs) ((k + 1 : Nat) : ℚ) =
      some (binNat (xs.length - 1) k) := by
  set m := xs.length - 1 with hm
  have hcmp : ∀ j, j ≤ 5 →
      ((((k + 1 : Nat) : ℚ) ≤ qedge (rankFirst xs) j) = (k ≤ natCut m j)) := by
    intro j hj
    rw [qedge_rankFirst hn hj]
    exact propext rank_le_edge_iff
  have hlt0 : ¬ (((k + 1 : Nat) : ℚ) < qedge (rankFirst xs) 0) := by
    rw [qedge_rankFirst hn (by norm_num)]
    push_cast
    intro hcon
    nlinarith [Nat.cast_nonneg (α := ℚ) k]
  have hk5 : k ≤ natCut m 5 := by
    unfold natCut
    rw [Nat.mul_div_cancel_left m (by norm_num)]
    omega
  unfold assignOf binAssign binNat
  rw [if_neg hlt0]
  simp only [hcmp 1 (by norm_num), hcmp 2 (by norm_num), hcmp 3 (by norm_num),
    hcmp 4 (by norm_num), hcmp 5 (by norm_num)]
  split_ifs <;> first | rfl | omega

/-- Counting integers of `0..n-1` inside an interval `[a, c]`. -/
theorem countP_range_interval (n a c : Nat) :
    (List.range n).countP (fun k => decide (a ≤ k ∧ k ≤ c)) =
      min (c + 1) n - min a n := by
  induction n with
  | zero => simp
  | succ n ih =>
    rw [List.range_succ, List.countP_append, ih]
    by_cases h1 : a ≤ n <;> by_cases h2 : n ≤ c <;>
        simp [List.countP_cons, h1, h2] <;> omega

/-- Bin populations of the Nat-level binning of `0..m`: the lowest bin has
`⌊m/5⌋ + 1` members, bin `b ≥ 1` has `⌊(b+1)m/5⌋ - ⌊bm/5⌋`. -/
theorem countP_range_binNat {m b : Nat} (hb : b ≤ 4) :
    (List.range (m + 1)).countP (fun k => decide (binNat m k = b)) =
      (if b = 0 then natCut m 1 + 1 else natCut m (b + 1) - natCut m b) := by
  have hiff : ∀ k ∈ List.range (m + 1),
      (decide (binNat m k = b) = true) ↔
        (decide ((if b = 0 then 0 else natCut m b + 1) ≤ k ∧ k ≤ natCut m (b + 1))
          = true) := by
    intro k hk
    rw [decide_eq_true_eq, decide_eq_true_eq]
    have hkm : k ≤ m := by
      rw [List.mem_range] at hk
      omega
    unfold binNat natCut
    interval_cases b <;> split_ifs <;> simp_all <;> omega
  rw [List.countP_congr hiff, countP_range_interval]
  unfold natCut
  interval_cases b <;> simp <;> omega

/-- The five bin populations of the Nat-level binning differ by at most
one. -/
theorem binCount_balance {m b1 b2 : Nat} (h1 : b1 ≤ 4) (h2 : b2 ≤ 4) :
    (if b1 = 0 then natCut m 1 + 1 else natCut m (b1 + 1) - natCut m b1) ≤
      (if b2 = 0 then natCut m 1 + 1 else natCut m (b2 + 1) - natCut m b2) + 1 := by
  unfold natCut
  interval_cases b1 <;> interval_cases b2 <;> simp <;> omega

/-- Counting scored rows by F score is counting the F bin list. -/
theorem zipScores_countP (p : Nat → Bool) {rs : List RFMRow}
    {as' bs' cs' : List Nat} (ha : as'.length = rs.length)
    (hb : bs'.length = rs.length) (hc : cs'.length = rs.length) :
    (zipScores rs as' bs' cs').countP (fun r => p r.F_Score) =
      bs'.countP (fun b => p (b + 1)) := by
  induction rs generalizing as' bs' cs' with
  | nil =>
    have hbs : bs' = [] := List.length_eq_zero.mp hb
    subst hbs
    simp [zipScores]
  | cons x rs ih =>
    cases as' with
    | nil => simp at ha
    | cons a as' =>
      cases bs' with
      | nil => simp at hb
      | cons b bs' =>
        cases cs' with
        | nil => simp at hc
        | cons c cs' =>
          rw [zipScores, List.countP_cons, List.countP_cons,
            ih (by simpa using ha) (by simpa using hb) (by simpa using hc)]
          rfl

/-- Population of each F-score bin after a successful qcut on the
tie-broken ranks: exactly the Nat-level bin populations. -/
theorem fbins_count {freqs : List ℚ} {fbins : List Nat} (hn : 1 ≤ freqs.length)
    (h : qcut5 (rankFirst freqs) = .ok fbins) {s : Nat} (hs1 : 1 ≤ s)
    (hs5 : s ≤ 5) :
    fbins.countP (fun x => decide (x + 1 = s)) =
      (if s - 1 = 0 then natCut (freqs.length - 1) 1 + 1
        else natCut (freqs.length - 1) ((s - 1) + 1) -
          natCut (freqs.length - 1) (s - 1)) := by
  obtain ⟨hch, hall, rfl⟩ := qcut5_ok h
  rw [List.countP_map]
  rw [List.Perm.countP_eq _ (rankFirst_perm freqs)]
  rw [List.countP_map]
  have hpoint : ∀ k ∈ List.range freqs.length,
      ((((fun x => decide (x + 1 = s)) ∘ fun v => (assignOf (rankFirst freqs) v).getD 0)
          ∘ fun k : Nat => ((k + 1 : Nat) : ℚ)) k = true)
        ↔ ((fun k => decide (binNat (freqs.length - 1) k = s - 1)) k = true) := by
    intro k hk
    simp only [Function.comp_apply]
    rw [assignOf_rankFirst hn (List.mem_range.mp hk), Option.getD_some]
    rw [decide_eq_true_eq, decide_eq_true_eq]
    omega
  rw [List.countP_congr hpoint]
  set M := freqs.length - 1 with hM
  rw [show freqs.length = M + 1 by omega]
  exact countP_range_binNat (by omega)

/-- C2, amended: the stable tie-break (`rank(method='first')`) is applied
to Frequency only, so on every successfully scored population of at least 5
customers the five F-score classes have near-equal population (any two
class sizes differ by at most 1), while mass ties in Recency or Monetary
make the scorer fail on duplicate bin edges (see the counterexample). -/
theorem C2_frequency_bins_balanced (rfm : List RFMRow) (out : List ScoredRow)
    (hlen : 5 ≤ rfm.length) (h : score_rfm rfm = .ok out) (s1 s2 : Nat)
    (h11 : 1 ≤ s1) (h15 : s1 ≤ 5) (h21 : 1 ≤ s2) (h25 : s2 ≤ 5) :
    out.countP (fun r => r.F_Score = s1) ≤
      out.countP (fun r => r.F_Score = s2) + 1 := by
  obtain ⟨rbins, fbins, mbins, h1, h2, h3, rfl⟩ := score_rfm_ok h
  have hlr : rbins.length = rfm.length := by
    obtain ⟨_, _, hbq⟩ := qcut5_ok h1
    rw [hbq, List.length_map, List.length_map]
  have hlf : fbins.length = rfm.length := by
    obtain ⟨_, _, hbq⟩ := qcut5_ok h2
    rw [hbq, List.length_map]
    simp [rankFirst]
  have hlm : mbins.length = rfm.length := by
    obtain ⟨_, _, hbq⟩ := qcut5_ok h3
    rw [hbq, List.length_map, List.length_map]
  have hn : 1 ≤ (rfm.map fun r => ((r.Frequency : ℚ))).length := by
    rw [List.length_map]
    omega
  have hc1 : (zipScores rfm rbins fbins mbins).countP
        (fun r => decide (r.F_Score = s1)) =
      fbins.countP (fun b => decide (b + 1 = s1)) :=
    zipScores_countP (fun x => decide (x = s1)) hlr hlf hlm
  have hc2 : (zipScores rfm rbins fbins mbins).countP
        (fun r => decide (r.F_Score = s2)) =
      fbins.countP (fun b => decide (b + 1 = s2)) :=
    zipScores_countP (fun x => decide (x = s2)) hlr hlf hlm
  rw [hc1, hc2, fbins_count hn h2 h11 h15, fbins_count hn h2 h21 h25]
  exact binCount_balance (by omega) (by omega)

/-- C2, witness for the amended theorem: on the concrete five-customer
table the F-score class sizes of scores 1 and 2 differ by at most one. -/
theorem C2_frequency_bins_balanced_witness :
    5 ≤ rfm5.length ∧
      scored5.countP (fun r => r.F_Score = 1) ≤
        scored5.countP (fun r => r.F_Score = 2) + 1 :=
  ⟨by decide, C2_frequency_bins_balanced rfm5 scored5 (by decide) score_rfm_rfm5
    1 2 (by decide) (by decide) (by decide) (by decide)⟩

end Seg
